import Mathlib

/-!
Shallow embedding of the tokenization core of the language-model-gym
repository (src/tokenization): Vocabulary, the base Tokenizer, the
BytePairEncoding and WordPiece tokenizers and the UnigramLanguageModeling
stub, together with proofs of the specification claims about them.

Python semantics modelled explicitly:
  - dict            -> insertion-ordered association list (Dict below);
  - raising code    -> Except PyErr;
  - int             -> Int (ids, frequency counts, max_size);
  - float division in the WordPiece score -> exact rational comparison
    by cross multiplication; Python computes the scores with float
    division, which on the small counts exercised here compares
    identically to the exact value;
  - None            -> Option.none (ids before build are None in Python).
-/

/-- Errors the Python code can raise. -/
inductive PyErr where
  | typeError
  | indexError
  | keyError
  | notImplementedError
  | zeroDivisionError
deriving DecidableEq, Repr

deriving instance DecidableEq for Except

set_option maxRecDepth 10000

/-- A Python dict: an association list in insertion order. -/
abbrev Dict (α β : Type) := List (α × β)

/-- Lookup: d.get(k) as an Option. -/
def dictGet? {α β : Type} [BEq α] (d : Dict α β) (k : α) : Option β :=
  (d.find? (fun p => p.1 == k)).map (·.2)

/-- Lookup with default: d.get(k, v0). -/
def dictGetD {α β : Type} [BEq α] (d : Dict α β) (k : α) (v0 : β) : β :=
  (dictGet? d k).getD v0

/-- Subscript read d[k]: raises KeyError when the key is absent. -/
def dictGet! {α β : Type} [BEq α] (d : Dict α β) (k : α) : Except PyErr β :=
  match dictGet? d k with
  | some v => .ok v
  | none => .error .keyError

/-- Assignment d[k] = v: updates in place when the key exists (keeping its
position, as a Python dict does), otherwise appends the new entry. -/
def dictSet {α β : Type} [BEq α] (d : Dict α β) (k : α) (v : β) : Dict α β :=
  if d.any (fun p => p.1 == k) then
    d.map (fun p => if p.1 == k then (p.1, v) else p)
  else
    d ++ [(k, v)]

/-- Deletion del d[k]. -/
def dictErase {α β : Type} [BEq α] (d : Dict α β) (k : α) : Dict α β :=
  d.filter (fun p => !(p.1 == k))

/-- A dict built from a list of key-value pairs in order (dict comprehension). -/
def dictOfPairs {α β : Type} [BEq α] (l : List (α × β)) : Dict α β :=
  l.foldl (fun d p => dictSet d p.1 p.2) []

/-- Python enumerate(xs) starting at index k. -/
def pyEnumFrom {α : Type} (k : Nat) : List α → List (Nat × α)
  | [] => []
  | x :: xs => (k, x) :: pyEnumFrom (k + 1) xs

/-- Python enumerate(xs). -/
def pyEnum {α : Type} (xs : List α) : List (Nat × α) := pyEnumFrom 0 xs

/-- Python ''.join(xs): concatenation of strings with no separator. -/
def pyJoin (xs : List String) : String := ⟨(xs.map String.data).flatten⟩

/-- Python s[l:r] over the character list of a string. -/
def pySubstr (cs : List Char) (l r : Nat) : String := ⟨(cs.take r).drop l⟩

/-- Python s.startswith(pre). -/
def pyStartsWith (s pre : String) : Bool := pre.data.isPrefixOf s.data

/-- Python s[n:]. -/
def pyDropStr (s : String) (n : Nat) : String := ⟨s.data.drop n⟩

/-- Python xs[:k] for an Int bound: a negative bound counts from the end. -/
def pySliceTo {α : Type} (xs : List α) (k : Int) : List α :=
  if 0 ≤ k then xs.take k.toNat else xs.take ((xs.length : Int) + k).toNat

/-- Lexicographic order on code points over character lists: how Python
compares strings. -/
def pyStrLeAux : List Char → List Char → Bool
  | [], _ => true
  | _ :: _, [] => false
  | c :: cs, d :: ds =>
    if c.toNat < d.toNat then true
    else if d.toNat < c.toNat then false
    else pyStrLeAux cs ds

/-- Python string comparison a <= b. -/
def pyStrLe (a b : String) : Bool := pyStrLeAux a.data b.data

/-- Python sorted(...) for strings: ascending lexicographic order on
code points (a stable sort; build only ever sorts duplicate-free
lists, for which every correct sort produces the same output). -/
def pySorted (xs : List String) : List String :=
  List.insertionSort (fun a b => pyStrLe a b = true) xs

/-!
## Vocabulary (src/tokenization/vocabulary.py)
-/

/-- The state of a Vocabulary instance.  The four special-token ids are
None until build runs (Python initializes them to None). -/
structure Vocabulary where
  max_size : Int
  UNKNOWN_TOKEN : String := "<UNK>"
  PADDING_TOKEN : String := "<PAD>"
  BEGIN_OF_SEQ_TOKEN : String := "<BOS>"
  END_OF_SEQ_TOKEN : String := "<EOS>"
  UNKNOWN_ID : Option Int := none
  PADDING_ID : Option Int := none
  BEGIN_OF_SEQ_ID : Option Int := none
  END_OF_SEQ_ID : Option Int := none
  token_2_id_map : Dict String Int := []
  id_2_token_map : Dict Int String := []
deriving DecidableEq, Repr

namespace Vocabulary

/-- Vocabulary.__init__(max_size): everything else takes its default.
The constructor performs no validation of max_size. -/
def init (max_size : Int) : Vocabulary := { max_size := max_size }

/-- The token-to-id map built by Vocabulary.build from the ordered list
of all tokens ({token: id for id, token in enumerate(all_tokens)}). -/
def enumMap (all_tokens : List String) : Dict String Int :=
  dictOfPairs ((pyEnum all_tokens).map (fun p => (p.2, (p.1 : Int))))

/-- Vocabulary.build(tokens).  A None argument is replaced by the empty
list.  The four special-token ids are read back out of the freshly built
map; the lookups always succeed because the special tokens head
all_tokens, so the Option result is some in every case. -/
def build (v : Vocabulary) (tokens : Option (List String)) : Vocabulary :=
  let tokens := tokens.getD []
  let special_tokens := [v.UNKNOWN_TOKEN, v.PADDING_TOKEN, v.BEGIN_OF_SEQ_TOKEN, v.END_OF_SEQ_TOKEN]
  let unique_tokens := pySorted ((tokens.filter (fun t => !(special_tokens.contains t))).dedup)
  let limited_tokens := pySliceTo unique_tokens (v.max_size - 4)
  let all_tokens := special_tokens ++ limited_tokens
  let t2i := enumMap all_tokens
  let i2t := dictOfPairs (t2i.map (fun p => (p.2, p.1)))
  { v with
    token_2_id_map := t2i
    id_2_token_map := i2t
    UNKNOWN_ID := dictGet? t2i v.UNKNOWN_TOKEN
    PADDING_ID := dictGet? t2i v.PADDING_TOKEN
    BEGIN_OF_SEQ_ID := dictGet? t2i v.BEGIN_OF_SEQ_TOKEN
    END_OF_SEQ_ID := dictGet? t2i v.END_OF_SEQ_TOKEN }

/-- Vocabulary.get_id(token): token_2_id_map.get(token, UNKNOWN_ID).
Before build the result is UNKNOWN_ID = None for every token. -/
def get_id (v : Vocabulary) (token : String) : Option Int :=
  match dictGet? v.token_2_id_map token with
  | some i => some i
  | none => v.UNKNOWN_ID

/-- Vocabulary.get_token(id): id_2_token_map.get(id, UNKNOWN_TOKEN).
The id argument may be None at runtime (encode emits None ids before
build); None is never a key, so it resolves to the unknown token. -/
def get_token (v : Vocabulary) (id : Option Int) : String :=
  match id with
  | some i => (dictGet? v.id_2_token_map i).getD v.UNKNOWN_TOKEN
  | none => v.UNKNOWN_TOKEN

/-- Vocabulary.__len__. -/
def size (v : Vocabulary) : Nat := v.token_2_id_map.length

end Vocabulary

/-!
## Tokenizer base class (src/tokenization/tokenizer.py)

The base class owns a Vocabulary() built with the default max_size 10000;
segment raises NotImplementedError; encode is the greedy longest-match
scan; decode maps ids to tokens and concatenates.
-/

namespace Tokenizer

/-- Tokenizer.__init__: the owned vocabulary, Vocabulary(). -/
def initVocab : Vocabulary := Vocabulary.init 10000

/-- Tokenizer.segment: raise NotImplementedError. -/
def segment (_text : String) : Except PyErr (List String) :=
  .error .notImplementedError

/-- The inner loop of Tokenizer.encode: for right_text_pointer in
range(len(text), left_text_pointer, -1), take text[left:right], and stop
at the first substring whose id differs from UNKNOWN_ID.  The fuel n is
the number of candidate lengths still to try; the call starts at
n = len(text) - left, so the first candidate is the whole tail.  Returns
the id found together with the advance right - left minus one (the pair
carries k where the cursor advances by k + 1, keeping the advance
visibly positive). -/
def encodeFindMatch (v : Vocabulary) (cs : List Char) (left : Nat) :
    Nat → Option (Option Int × Nat)
  | 0 => none
  | n + 1 =>
    let token := pySubstr cs left (left + n + 1)
    let token_id := v.get_id token
    if token_id ≠ v.UNKNOWN_ID then some (token_id, n)
    else encodeFindMatch v cs left n

/-- The outer while loop of Tokenizer.encode over the left pointer. -/
def encodeLoop (v : Vocabulary) (cs : List Char) (left : Nat) :
    List (Option Int) :=
  if h : left < cs.length then
    match encodeFindMatch v cs left (cs.length - left) with
    | some (token_id, k) => token_id :: encodeLoop v cs (left + k + 1)
    | none => v.UNKNOWN_ID :: encodeLoop v cs (left + 1)
  else []
termination_by cs.length - left
decreasing_by
  all_goals omega

/-- Tokenizer.encode(text).  Ids are Option Int: before build every
emitted id is None, afterwards every id is an integer. -/
def encode (v : Vocabulary) (text : String) : List (Option Int) :=
  encodeLoop v text.data 0

/-- Tokenizer.decode(token_ids): map each id to its token and join. -/
def decode (v : Vocabulary) (token_ids : List (Option Int)) : String :=
  pyJoin (token_ids.map (fun id => v.get_token id))

/-- Tokenizer.learn(text): vocab.build(segment(text)); with the abstract
base segment this propagates the NotImplementedError. -/
def learn (text : String) : Except PyErr Vocabulary := do
  let tokenized_text ← segment text
  .ok (initVocab.build (some tokenized_text))

end Tokenizer

/-!
## BytePairEncoding (src/tokenization/byte_pair_encoding.py)
-/

namespace BytePairEncoding

/-- find_most_frequent_token_pair: tally every adjacent pair in insertion
order, then max(token_pairs, key=token_pairs.get), which yields the first
pair (in first-seen order) reaching the maximum count.  Returns None when
no pair exists. -/
def find_most_frequent_token_pair (tokenized_text : List String) :
    Option (String × String) :=
  let token_pairs : Dict (String × String) Int :=
    (tokenized_text.zip tokenized_text.tail).foldl
      (fun d pr => dictSet d pr (dictGetD d pr 0 + 1)) []
  match token_pairs with
  | [] => none
  | p0 :: rest =>
    some (rest.foldl (fun best p => if p.2 > best.2 then p else best) p0).1

/-- The merge pass of add_new_token_pair: scan left to right, replace
each non-overlapping occurrence of the pair by its concatenation, and
skip the second member of a merged pair. -/
def mergePass (a b new_token : String) : List String → List String
  | x :: y :: rest =>
    if x == a && y == b then new_token :: mergePass a b new_token rest
    else x :: mergePass a b new_token (y :: rest)
  | l => l

/-- add_new_token_pair(token_pair, tokenized_text): the merge pass; on an
empty list the final 'updated_tokenized_text.append(tokenized_text[-1])'
raises IndexError. -/
def add_new_token_pair (token_pair : String × String)
    (tokenized_text : List String) : Except PyErr (List String) :=
  match tokenized_text with
  | [] => .error .indexError
  | _ => .ok (mergePass token_pair.1 token_pair.2 (token_pair.1 ++ token_pair.2) tokenized_text)

/-- BytePairEncoding.segment(text, max_num_merges): the source reads
'for _ in max_num_merges:', iterating over the integer itself, which
raises TypeError on every call before any merge work happens. -/
def segment (_text : String) (_max_num_merges : Int) :
    Except PyErr (List String) :=
  .error .typeError

/-- Modelled from the spec: the merge loop the source intends,
'for _ in range(max_num_merges)' (spec 4.4: repeat up to max_num_merges
times), around the source's find_most_frequent_token_pair and
add_new_token_pair.  The source's own loop header iterates the integer
and dies with TypeError, so the repetition construct is taken from the
spec; everything inside the loop is translated from the source. -/
def segmentLoop (tokenized_text : List String) :
    Nat → Except PyErr (List String)
  | 0 => .ok tokenized_text
  | n + 1 =>
    match find_most_frequent_token_pair tokenized_text with
    | none => .ok tokenized_text
    | some pr => do
      let updated ← add_new_token_pair pr tokenized_text
      segmentLoop updated n

/-- Modelled from the spec: segment as intended, with the loop repaired
to range(max_num_merges).  Initializes with the individual characters. -/
def segmentIntended (text : String) (max_num_merges : Nat) :
    Except PyErr (List String) :=
  segmentLoop (text.data.map (fun c => String.singleton c)) max_num_merges

/-- BytePairEncoding.learn(text) with the intended segment: feed the
segmentation into Vocabulary.build. -/
def learnIntended (text : String) (max_num_merges : Nat) :
    Except PyErr Vocabulary := do
  let tokenized_text ← segmentIntended text max_num_merges
  .ok (Tokenizer.initVocab.build (some tokenized_text))

/-- BytePairEncoding.learn(text) as the source behaves: segment raises
TypeError, which propagates. -/
def learn (text : String) (max_num_merges : Int) : Except PyErr Vocabulary := do
  let tokenized_text ← segment text max_num_merges
  .ok (Tokenizer.initVocab.build (some tokenized_text))

end BytePairEncoding

/-!
## WordPiece (src/tokenization/word_piece.py)
-/

namespace WordPiece

/-- Python re.fullmatch of one character against the class \w used in the
boundary pattern: word characters (letters, digits, underscore; the
corpus here is ASCII, where the regex \w is exactly this class). -/
def isWordChar (c : Char) : Bool := c.isAlphanum || c == '_'

/-- Python re.fullmatch of a token against the boundary pattern, one
punctuation character or one whitespace character: the pattern matches
exactly the one-character strings whose character is either non-word
non-space, or a space. -/
def isBoundaryTok (t : String) : Bool :=
  match t.data with
  | [c] => (!isWordChar c && !c.isWhitespace) || c.isWhitespace
  | _ => false

/-- The pair-frequency tally of find_highest_scoring_token_pair: every
adjacent pair, in first-seen order, skipping any pair either of whose
members matches the boundary pattern. -/
def collectPairs (tokenized_text : List String) :
    Dict (String × String) Int :=
  (tokenized_text.zip tokenized_text.tail).foldl
    (fun d pr =>
      if isBoundaryTok pr.1 || isBoundaryTok pr.2 then d
      else dictSet d pr (dictGetD d pr 0 + 1)) []

/-- The score of one pair: freq(pair) / (freq(a) * freq(b)), with the
two token frequencies read by subscript (KeyError when absent) and the
division raising ZeroDivisionError on a zero denominator.  The score is
kept unreduced as the pair numerator, denominator; scores are compared
exactly by cross multiplication (ratGt).  Python compares the float
quotients, which agrees on the counts these programs produce. -/
def pairScore (token_2_freq_map : Dict String Int)
    (pr : (String × String) × Int) : Except PyErr (Int × Int) := do
  let fa ← dictGet! token_2_freq_map pr.1.1
  let fb ← dictGet! token_2_freq_map pr.1.2
  if fa * fb == 0 then .error .zeroDivisionError
  else .ok (pr.2, fa * fb)

/-- Exact comparison n1 / d1 > n2 / d2 for nonzero denominators: the
sign of (n1 * d2 - n2 * d1) * (d1 * d2). -/
def ratGt (n1 d1 n2 d2 : Int) : Bool :=
  0 < (n1 * d2 - n2 * d1) * (d1 * d2)

/-- find_highest_scoring_token_pair: tally, then
max(token_pair_2_freq_map, key=score), which evaluates the score of
every pair and keeps the first pair (in insertion order) attaining the
maximum; None when the tally is empty. -/
def find_highest_scoring_token_pair (tokenized_text : List String)
    (token_2_freq_map : Dict String Int) :
    Except PyErr (Option (String × String)) := do
  match collectPairs tokenized_text with
  | [] => .ok none
  | p0 :: rest =>
    let s0 ← pairScore token_2_freq_map p0
    let best ← rest.foldlM
      (fun best p => do
        let s ← pairScore token_2_freq_map p
        if ratGt s.1 s.2 best.2.1 best.2.2 then .ok (p.1, s) else .ok best)
      (p0.1, s0)
    .ok (some best.1)

/-- The frequency-map update performed for each merged occurrence inside
add_new_token_pair, in source order: bump the merged token, decrement
both constituents by subscript (KeyError when absent), then delete each
constituent whose count reads back as zero.  When the two constituents
are the same token the second zero-test rereads a key the first delete
may just have removed, which raises KeyError. -/
def mergeFreqUpdate (a b new_token : String)
    (token_2_freq_map : Dict String Int) :
    Except PyErr (Dict String Int) := do
  let m := dictSet token_2_freq_map new_token (dictGetD token_2_freq_map new_token 0 + 1)
  let fa ← dictGet! m a
  let m := dictSet m a (fa - 1)
  let fb ← dictGet! m b
  let m := dictSet m b (fb - 1)
  let va ← dictGet! m a
  let m := if va == 0 then dictErase m a else m
  let vb ← dictGet! m b
  let m := if vb == 0 then dictErase m b else m
  .ok m

/-- The merge pass of WordPiece.add_new_token_pair: replace each
non-overlapping occurrence left to right, updating the frequency map at
every merge. -/
def mergeRun (a b new_token : String) (token_2_freq_map : Dict String Int) :
    List String → Except PyErr (Dict String Int × List String)
  | x :: y :: rest =>
    if x == a && y == b then do
      let m ← mergeFreqUpdate a b new_token token_2_freq_map
      let (m', rest') ← mergeRun a b new_token m rest
      .ok (m', new_token :: rest')
    else do
      let (m', rest') ← mergeRun a b new_token token_2_freq_map (y :: rest)
      .ok (m', x :: rest')
  | l => .ok (token_2_freq_map, l)

/-- add_new_token_pair(token_pair, token_2_freq_map, tokenized_text):
skip entirely when either member matches the boundary pattern, else run
the merge pass.  (Unlike the BPE version, the final append of the last
element is guarded by 'and tokenized_text', so the empty list is safe.) -/
def add_new_token_pair (token_pair : String × String)
    (token_2_freq_map : Dict String Int) (tokenized_text : List String) :
    Except PyErr (Dict String Int × List String) :=
  if isBoundaryTok token_pair.1 || isBoundaryTok token_pair.2 then
    .ok (token_2_freq_map, tokenized_text)
  else
    mergeRun token_pair.1 token_pair.2 (token_pair.1 ++ token_pair.2)
      token_2_freq_map tokenized_text

/-- The add_prefixes walk, carrying the flag that the previous token was
punctuation or whitespace (initially true). -/
def addPrefixesGo (last_was_punctuation_or_whitespace : Bool) :
    List String → List String
  | [] => []
  | token :: rest =>
    if isBoundaryTok token then token :: addPrefixesGo true rest
    else if last_was_punctuation_or_whitespace then
      token :: addPrefixesGo false rest
    else ("##" ++ token) :: addPrefixesGo false rest

/-- add_prefixes(tokenized_text). -/
def add_prefixes (tokenized_text : List String) : List String :=
  addPrefixesGo true tokenized_text

/-- The initial token frequency tally of segment. -/
def initFreq (tokenized_text : List String) : Dict String Int :=
  tokenized_text.foldl (fun d t => dictSet d t (dictGetD d t 0 + 1)) []

/-- The merge loop of WordPiece.segment: for _ in range(max_num_merges),
find the highest scoring pair, stop when none exists, else merge it. -/
def segmentLoop (token_2_freq_map : Dict String Int)
    (tokenized_text : List String) : Nat → Except PyErr (List String)
  | 0 => .ok tokenized_text
  | n + 1 => do
    let pr ← find_highest_scoring_token_pair tokenized_text token_2_freq_map
    match pr with
    | none => .ok tokenized_text
    | some token_pair => do
      let (m', ts') ← add_new_token_pair token_pair token_2_freq_map tokenized_text
      segmentLoop m' ts' n

/-- WordPiece.segment(text, max_num_merges): seed with the individual
characters and their frequencies, run the merge loop, add prefixes. -/
def segment (text : String) (max_num_merges : Nat) :
    Except PyErr (List String) := do
  let tokenized_text := text.data.map (fun c => String.singleton c)
  let token_2_freq_map := initFreq tokenized_text
  let merged ← segmentLoop token_2_freq_map tokenized_text max_num_merges
  .ok (add_prefixes merged)

/-- WordPiece.encode(text): segment, then map each piece to its id; the
if/else in the source appends token_id when it differs from UNKNOWN_ID
and UNKNOWN_ID otherwise, which is get_id(token) in both branches. -/
def encode (v : Vocabulary) (text : String) (max_num_merges : Nat) :
    Except PyErr (List (Option Int)) := do
  let tokenized_text ← segment text max_num_merges
  .ok (tokenized_text.map (fun token => v.get_id token))

/-- The reconstruction walk of WordPiece.decode over the token strings,
with the output list kept in reverse: a token carrying the continuation
prefix is appended (minus the prefix) to the most recent output token,
which is decoded_text[-1] and raises IndexError when there is none. -/
def decodeGo (acc_rev : List String) :
    List String → Except PyErr (List String)
  | [] => .ok acc_rev
  | token :: rest =>
    if pyStartsWith token "##" then
      match acc_rev with
      | [] => .error .indexError
      | last :: more => decodeGo ((last ++ pyDropStr token 2) :: more) rest
    else decodeGo (token :: acc_rev) rest

/-- WordPiece.decode(token_ids): map ids to tokens, reconstruct, join. -/
def decode (v : Vocabulary) (token_ids : List (Option Int)) :
    Except PyErr String := do
  let tokens := token_ids.map (fun id => v.get_token id)
  let decoded_text ← decodeGo [] tokens
  .ok (pyJoin decoded_text.reverse)

/-- WordPiece.learn(text): vocab.build(segment(text)). -/
def learn (text : String) (max_num_merges : Nat) : Except PyErr Vocabulary := do
  let tokenized_text ← segment text max_num_merges
  .ok (Tokenizer.initVocab.build (some tokenized_text))

end WordPiece

/-!
## UnigramLanguageModeling (src/tokenization/unigram_language_modeling.py)
-/

namespace UnigramLanguageModeling

/-- UnigramLanguageModeling.segment(text): the body is the single
statement pass, so the call succeeds and returns None; it raises
nothing. -/
def segment (_text : String) : Except PyErr (Option (List String)) :=
  .ok none

/-- UnigramLanguageModeling.learn(text): the inherited learn feeds the
None returned by segment into Vocabulary.build, which replaces None by
the empty token list, so learn silently builds the specials-only
vocabulary. -/
def learn (text : String) : Except PyErr Vocabulary := do
  let tokenized_text ← segment text
  .ok (Tokenizer.initVocab.build tokenized_text)

end UnigramLanguageModeling

/-!
## Specification-side definitions

greedyPieces is modelled from the spec's words for the default encode
(claim C5 is a refinement claim: the code's descending scan against this
independent statement of the policy); the remaining definitions are
proof-layer names for the intermediate values of Vocabulary.build, used
to state its structure.
-/

/-- Modelled from the spec: at a cursor position, the length of the
longest substring starting there (length at least 1, at most the rest of
the text) whose vocabulary id is not the UNK id; 0 when no length
qualifies. -/
def greedyMatchLen (v : Vocabulary) (cs : List Char) (left : Nat) : Nat :=
  Nat.findGreatest
    (fun l => 0 < l ∧ v.get_id (pySubstr cs left (left + l)) ≠ v.UNKNOWN_ID)
    (cs.length - left)

/-- Modelled from the spec: the greedy longest-match pass, producing the
accepted substring together with its emitted id at every step; on a
position with no match it consumes exactly one character and emits the
UNK id. -/
def greedyPieces (v : Vocabulary) (cs : List Char) (left : Nat) :
    List (String × Option Int) :=
  if h : left < cs.length then
    let l := greedyMatchLen v cs left
    if hl : l = 0 then
      (pySubstr cs left (left + 1), v.UNKNOWN_ID) :: greedyPieces v cs (left + 1)
    else
      let token := pySubstr cs left (left + l)
      (token, v.get_id token) :: greedyPieces v cs (left + l)
  else []
termination_by cs.length - left
decreasing_by
  all_goals omega

/-- The four special tokens of a default vocabulary, in insertion order. -/
def specialTokens : List String := ["<UNK>", "<PAD>", "<BOS>", "<EOS>"]

/-- The deduplicated, sorted non-special training tokens of build. -/
def uniqueTokens (T : List String) : List String :=
  pySorted ((T.filter (fun t => !(specialTokens.contains t))).dedup)

/-- The token list build enumerates: specials first, then the unique
tokens truncated by the Python slice [:max_size - 4]. -/
def allTokens (M : Int) (T : List String) : List String :=
  specialTokens ++ pySliceTo (uniqueTokens T) (M - 4)

/-- The token-to-id pair list of a built default vocabulary. -/
def vocabPairs (M : Int) (T : List String) : List (String × Int) :=
  (pyEnum (allTokens M T)).map (fun p => (p.2, (p.1 : Int)))

/-- Proof-layer predicate: a nonempty token made of word characters
only.  Initial non-boundary character tokens satisfy it and WordPiece
merges preserve it. -/
def wordTok (t : String) : Prop :=
  t.data ≠ [] ∧ ∀ c ∈ t.data, WordPiece.isWordChar c = true

instance wordTok.dec (t : String) : Decidable (wordTok t) := by
  unfold wordTok
  infer_instance

/-- Proof-layer predicate: every token of a WordPiece working sequence
is either a boundary token (one punctuation or whitespace character) or
a word-character token. -/
def shapeTok (t : String) : Prop :=
  WordPiece.isBoundaryTok t = true ∨ wordTok t

instance shapeTok.dec (t : String) : Decidable (shapeTok t) := by
  unfold shapeTok
  infer_instance

/-!
## Lemmas: dictionaries and enumeration
-/

theorem dictGet?_cons {α β : Type} [BEq α] (p : α × β) (d : Dict α β) (k : α) :
    dictGet? (p :: d) k = if p.1 == k then some p.2 else dictGet? d k := by
  by_cases h : p.1 == k <;> simp [dictGet?, List.find?, h]

theorem mem_of_dictGet?_eq_some {α β : Type} [BEq α] [LawfulBEq α]
    {d : Dict α β} {k : α} {v : β} (h : dictGet? d k = some v) : (k, v) ∈ d := by
  induction d with
  | nil => simp [dictGet?] at h
  | cons p rest ih =>
    rw [dictGet?_cons] at h
    by_cases hpk : p.1 == k
    · simp only [hpk, if_true, Option.some.injEq] at h
      have h1 : p.1 = k := eq_of_beq hpk
      have : p = (k, v) := by
        cases p
        simp_all
      exact this ▸ List.mem_cons_self _ _
    · simp only [hpk, if_false, Bool.false_eq_true] at h
      exact List.mem_cons.mpr (Or.inr (ih h))

theorem dictGet?_eq_some_of_mem {α β : Type} [BEq α] [LawfulBEq α]
    {d : Dict α β} {k : α} {v : β}
    (hnd : (d.map Prod.fst).Nodup) (hm : (k, v) ∈ d) : dictGet? d k = some v := by
  induction d with
  | nil => simp at hm
  | cons p rest ih =>
    simp only [List.map_cons, List.nodup_cons] at hnd
    rw [dictGet?_cons]
    rcases List.mem_cons.mp hm with heq | hmem
    · subst heq; simp
    · have hk : p.1 ≠ k := by
        intro hcontra
        exact hnd.1 (hcontra ▸ (List.mem_map.mpr ⟨(k, v), hmem, rfl⟩))
      simp [hk]
      exact ih hnd.2 hmem

theorem dictSet_eq_append {α β : Type} [BEq α] [LawfulBEq α]
    {d : Dict α β} {k : α} (v : β) (h : ∀ p ∈ d, p.1 ≠ k) :
    dictSet d k v = d ++ [(k, v)] := by
  have hany : d.any (fun p => p.1 == k) = false := by
    rw [List.any_eq_false]
    intro p hp
    simpa using h p hp
  unfold dictSet
  rw [hany]
  simp

theorem foldl_dictSet_eq_append {α β : Type} [BEq α] [LawfulBEq α] :
    ∀ (l acc : Dict α β), (((acc ++ l).map Prod.fst)).Nodup →
      l.foldl (fun d p => dictSet d p.1 p.2) acc = acc ++ l := by
  intro l
  induction l with
  | nil => intro acc _; simp
  | cons p rest ih =>
    intro acc hnd
    have hfresh : ∀ q ∈ acc, q.1 ≠ p.1 := by
      intro q hq hcontra
      have h1 : q.1 ∈ (acc ++ p :: rest).map Prod.fst :=
        List.mem_map.mpr ⟨q, by simp [hq], rfl⟩
      have hsplit := (List.nodup_append.mp (by simpa using hnd))
      exact (hsplit.2.2 (List.mem_map.mpr ⟨q, hq, rfl⟩)
        (by simp [hcontra])).elim
    have hstep : dictSet acc p.1 p.2 = acc ++ [p] := by
      rw [dictSet_eq_append p.2 hfresh]
    simp only [List.foldl_cons, hstep]
    have := ih (acc ++ [p]) (by simpa using hnd)
    simpa using this

theorem dictOfPairs_eq_self {α β : Type} [BEq α] [LawfulBEq α]
    {l : List (α × β)} (h : (l.map Prod.fst).Nodup) : dictOfPairs l = l := by
  have := foldl_dictSet_eq_append l [] (by simpa using h)
  simpa [dictOfPairs] using this

theorem pyEnumFrom_map_snd {α : Type} :
    ∀ (k : Nat) (xs : List α), (pyEnumFrom k xs).map Prod.snd = xs := by
  intro k xs
  induction xs generalizing k with
  | nil => rfl
  | cons x rest ih => simp [pyEnumFrom, ih]

theorem mem_pyEnumFrom_le {α : Type} {i : Nat} {x : α} :
    ∀ {k : Nat} {xs : List α}, (i, x) ∈ pyEnumFrom k xs → k ≤ i := by
  intro k xs
  induction xs generalizing k with
  | nil => intro h; simp [pyEnumFrom] at h
  | cons y rest ih =>
    intro h
    rcases List.mem_cons.mp h with heq | hmem
    · cases heq; omega
    · have := ih hmem; omega

theorem pyEnumFrom_append {α : Type} (k : Nat) (xs ys : List α) :
    pyEnumFrom k (xs ++ ys) = pyEnumFrom k xs ++ pyEnumFrom (k + xs.length) ys := by
  induction xs generalizing k with
  | nil => simp [pyEnumFrom]
  | cons x rest ih =>
    have h1 : (x :: rest) ++ ys = x :: (rest ++ ys) := rfl
    rw [h1]
    show (k, x) :: pyEnumFrom (k + 1) (rest ++ ys) =
      ((k, x) :: pyEnumFrom (k + 1) rest) ++ pyEnumFrom (k + (x :: rest).length) ys
    rw [ih (k + 1)]
    have h3 : k + 1 + rest.length = k + (x :: rest).length := by
      simp [List.length_cons]
      omega
    rw [h3]
    simp

theorem pyEnumFrom_map_fst {α : Type} :
    ∀ (k : Nat) (xs : List α), (pyEnumFrom k xs).map Prod.fst = List.range' k xs.length := by
  intro k xs
  induction xs generalizing k with
  | nil => rfl
  | cons x rest ih => simp [pyEnumFrom, List.range'_succ, ih]

/-!
## Lemmas: structure of a built default vocabulary
-/

theorem specialTokens_nodup : specialTokens.Nodup := by decide

theorem uniqueTokens_perm (T : List String) :
    (uniqueTokens T).Perm ((T.filter (fun t => !(specialTokens.contains t))).dedup) :=
  List.perm_insertionSort _ _

theorem uniqueTokens_nodup (T : List String) : (uniqueTokens T).Nodup :=
  ((uniqueTokens_perm T).nodup_iff).mpr (List.nodup_dedup _)

theorem mem_uniqueTokens_not_special {T : List String} {t : String}
    (h : t ∈ uniqueTokens T) : t ∉ specialTokens := by
  have hmem := (uniqueTokens_perm T).mem_iff.mp h
  have := List.mem_dedup.mp hmem
  have := List.of_mem_filter this
  simpa using this

theorem pySliceTo_sublist {α : Type} (xs : List α) (k : Int) :
    (pySliceTo xs k).Sublist xs := by
  unfold pySliceTo
  split <;> exact List.take_sublist _ _

theorem allTokens_nodup (M : Int) (T : List String) : (allTokens M T).Nodup := by
  unfold allTokens
  rw [List.nodup_append]
  refine ⟨specialTokens_nodup, (pySliceTo_sublist _ _).nodup (uniqueTokens_nodup T), ?_⟩
  intro t ht hslice
  exact mem_uniqueTokens_not_special ((pySliceTo_sublist _ _).mem hslice) ht

theorem vocabPairs_map_fst (M : Int) (T : List String) :
    (vocabPairs M T).map Prod.fst = allTokens M T := by
  unfold vocabPairs
  rw [List.map_map]
  have : (Prod.fst ∘ fun p : Nat × String => (p.2, (p.1 : Int))) = Prod.snd := by
    funext p; rfl
  rw [this]
  exact pyEnumFrom_map_snd 0 _

theorem vocabPairs_keys_nodup (M : Int) (T : List String) :
    ((vocabPairs M T).map Prod.fst).Nodup := by
  rw [vocabPairs_map_fst]
  exact allTokens_nodup M T

theorem vocabPairs_map_snd (M : Int) (T : List String) :
    (vocabPairs M T).map Prod.snd =
      (List.range' 0 (allTokens M T).length).map (fun n : Nat => (n : Int)) := by
  unfold vocabPairs
  rw [List.map_map]
  have h1 : (Prod.snd ∘ fun p : Nat × String => (p.2, (p.1 : Int))) =
      (fun n : Nat => (n : Int)) ∘ (Prod.fst : Nat × String → Nat) := by
    funext p; rfl
  rw [h1, ← List.map_map]
  congr 1
  exact pyEnumFrom_map_fst 0 _

theorem vocabPairs_ids_nodup (M : Int) (T : List String) :
    ((vocabPairs M T).map Prod.snd).Nodup := by
  rw [vocabPairs_map_snd]
  refine List.Nodup.map ?_ (List.nodup_range' _ _)
  intro a b hab
  simpa using hab

theorem enumMap_allTokens (M : Int) (T : List String) :
    Vocabulary.enumMap (allTokens M T) = vocabPairs M T :=
  dictOfPairs_eq_self (vocabPairs_keys_nodup M T)

theorem build_t2i (M : Int) (T : List String) :
    ((Vocabulary.init M).build (some T)).token_2_id_map = vocabPairs M T :=
  enumMap_allTokens M T

theorem build_i2t (M : Int) (T : List String) :
    ((Vocabulary.init M).build (some T)).id_2_token_map =
      (vocabPairs M T).map (fun p => (p.2, p.1)) := by
  show dictOfPairs ((Vocabulary.enumMap (allTokens M T)).map (fun p => (p.2, p.1))) = _
  rw [enumMap_allTokens]
  apply dictOfPairs_eq_self
  rw [List.map_map]
  have : (Prod.fst ∘ fun p : String × Int => (p.2, p.1)) = Prod.snd := by
    funext p; rfl
  rw [this]
  exact vocabPairs_ids_nodup M T

theorem vocabPairs_expand (M : Int) (T : List String) :
    vocabPairs M T = ("<UNK>", 0) :: ("<PAD>", 1) :: ("<BOS>", 2) :: ("<EOS>", 3) ::
      (pyEnumFrom 4 (pySliceTo (uniqueTokens T) (M - 4))).map
        (fun p => (p.2, (p.1 : Int))) := rfl

theorem build_UNKNOWN_ID (M : Int) (T : List String) :
    ((Vocabulary.init M).build (some T)).UNKNOWN_ID = some 0 := by
  show dictGet? (Vocabulary.enumMap (allTokens M T)) "<UNK>" = some 0
  rw [enumMap_allTokens, vocabPairs_expand]
  rw [dictGet?_cons]
  simp

theorem build_UNKNOWN_TOKEN (M : Int) (T : List String) :
    ((Vocabulary.init M).build (some T)).UNKNOWN_TOKEN = "<UNK>" := rfl

theorem build_max_size (M : Int) (T : List String) :
    ((Vocabulary.init M).build (some T)).max_size = M := rfl

theorem pyEnumFrom_length {α : Type} :
    ∀ (k : Nat) (xs : List α), (pyEnumFrom k xs).length = xs.length := by
  intro k xs
  induction xs generalizing k with
  | nil => rfl
  | cons x rest ih => simp [pyEnumFrom, ih]

theorem vocabPairs_length (M : Int) (T : List String) :
    (vocabPairs M T).length = 4 + (pySliceTo (uniqueTokens T) (M - 4)).length := by
  unfold vocabPairs
  rw [List.length_map]
  show (pyEnumFrom 0 (allTokens M T)).length = _
  rw [pyEnumFrom_length]
  show (specialTokens ++ pySliceTo (uniqueTokens T) (M - 4)).length = _
  rw [List.length_append]
  rfl

theorem built_size (M : Int) (T : List String) :
    ((Vocabulary.init M).build (some T)).size =
      4 + (pySliceTo (uniqueTokens T) (M - 4)).length := by
  unfold Vocabulary.size
  rw [build_t2i, vocabPairs_length]

theorem built_special_ids (M : Int) (T : List String) :
    dictGet? (vocabPairs M T) "<UNK>" = some 0 ∧
    dictGet? (vocabPairs M T) "<PAD>" = some 1 ∧
    dictGet? (vocabPairs M T) "<BOS>" = some 2 ∧
    dictGet? (vocabPairs M T) "<EOS>" = some 3 := by
  rw [vocabPairs_expand]
  refine ⟨?_, ?_, ?_, ?_⟩ <;> simp [dictGet?_cons]

theorem built_nonspecial_id_ge (M : Int) (T : List String) {t : String} {i : Int}
    (ht : t ∉ specialTokens) (h : dictGet? (vocabPairs M T) t = some i) :
    4 ≤ i := by
  have hmem := mem_of_dictGet?_eq_some h
  rw [vocabPairs_expand] at hmem
  simp only [List.mem_cons] at hmem
  rcases hmem with h1 | h1 | h1 | h1 | h1
  · exfalso; apply ht; rw [Prod.mk.injEq] at h1; rw [h1.1]; decide
  · exfalso; apply ht; rw [Prod.mk.injEq] at h1; rw [h1.1]; decide
  · exfalso; apply ht; rw [Prod.mk.injEq] at h1; rw [h1.1]; decide
  · exfalso; apply ht; rw [Prod.mk.injEq] at h1; rw [h1.1]; decide
  · obtain ⟨⟨n, s⟩, hp, heq⟩ := List.mem_map.mp h1
    rw [Prod.mk.injEq] at heq
    have hle : 4 ≤ n := mem_pyEnumFrom_le hp
    have hi : ((n : Int)) = i := heq.2
    omega

theorem built_inverse (M : Int) (T : List String) (t : String) (i : Int) :
    dictGet? ((Vocabulary.init M).build (some T)).token_2_id_map t = some i ↔
    dictGet? ((Vocabulary.init M).build (some T)).id_2_token_map i = some t := by
  rw [build_t2i, build_i2t]
  constructor
  · intro h
    apply dictGet?_eq_some_of_mem
    · rw [List.map_map]
      have h1 : (Prod.fst ∘ fun p : String × Int => (p.2, p.1)) = Prod.snd := by
        funext p; rfl
      rw [h1]
      exact vocabPairs_ids_nodup M T
    · exact List.mem_map.mpr ⟨(t, i), mem_of_dictGet?_eq_some h, rfl⟩
  · intro h
    apply dictGet?_eq_some_of_mem (vocabPairs_keys_nodup M T)
    obtain ⟨⟨t', i'⟩, hp, heq⟩ := List.mem_map.mp (mem_of_dictGet?_eq_some h)
    rw [Prod.mk.injEq] at heq
    have ht : t' = t := heq.2
    have hi : i' = i := heq.1
    rw [← ht, ← hi]
    exact hp

theorem built_get_token_get_id (M : Int) (T : List String) (p : String)
    (h : ((Vocabulary.init M).build (some T)).get_id p ≠
      ((Vocabulary.init M).build (some T)).UNKNOWN_ID) :
    ((Vocabulary.init M).build (some T)).get_token
      (((Vocabulary.init M).build (some T)).get_id p) = p := by
  unfold Vocabulary.get_id at h ⊢
  cases hred : dictGet? ((Vocabulary.init M).build (some T)).token_2_id_map p with
  | none => rw [hred] at h; exact absurd rfl h
  | some k =>
    show ((Vocabulary.init M).build (some T)).get_token (some k) = p
    have hinv : dictGet? ((Vocabulary.init M).build (some T)).id_2_token_map k = some p :=
      (built_inverse M T p k).mp hred
    show (dictGet? ((Vocabulary.init M).build (some T)).id_2_token_map k).getD
      ((Vocabulary.init M).build (some T)).UNKNOWN_TOKEN = p
    rw [hinv]
    rfl

/-!
## Lemmas: the WordPiece merge loop preserves concatenation and token shape
-/

theorem pyBind_ok {α β : Type} {x : Except PyErr α} {f : α → Except PyErr β} {b : β}
    (h : (do let a ← x; f a) = .ok b) : ∃ a, x = .ok a ∧ f a = .ok b := by
  cases x with
  | error e => exact Except.noConfusion h
  | ok a => exact ⟨a, rfl, h⟩

theorem mergeRun_ok_join (a b nt : String) (hnt : nt = a ++ b) :
    ∀ (m : Dict String Int) (ts : List String), ∀ (m' : Dict String Int) (ts' : List String),
      WordPiece.mergeRun a b nt m ts = .ok (m', ts') →
      (ts'.map String.data).flatten = (ts.map String.data).flatten := by
  refine WordPiece.mergeRun.induct a b nt
    (fun m ts => ∀ m' ts', WordPiece.mergeRun a b nt m ts = .ok (m', ts') →
      (ts'.map String.data).flatten = (ts.map String.data).flatten) ?_ ?_ ?_
  · intro m x y rest hxy ih m' ts' hok
    unfold WordPiece.mergeRun at hok
    rw [if_pos hxy] at hok
    obtain ⟨m1, hm1, hok⟩ := pyBind_ok hok
    obtain ⟨pr, hrec, hok⟩ := pyBind_ok hok
    obtain ⟨mr, tsr⟩ := pr
    cases hok
    have hia := ih m1 m' tsr hrec
    have hx : x = a := eq_of_beq (Bool.and_elim_left hxy)
    have hy : y = b := eq_of_beq (Bool.and_elim_right hxy)
    simp only [List.map_cons, List.flatten_cons, hia, hnt, hx, hy,
      String.data_append, List.append_assoc]
  · intro m x y rest hxy ih m' ts' hok
    unfold WordPiece.mergeRun at hok
    rw [if_neg hxy] at hok
    obtain ⟨pr, hrec, hok⟩ := pyBind_ok hok
    obtain ⟨mr, tsr⟩ := pr
    cases hok
    have hia := ih m' tsr hrec
    simp only [List.map_cons, List.flatten_cons, hia]
  · intro m l hnc m' ts' hok
    have hself : WordPiece.mergeRun a b nt m l = .ok (m, l) := by
      unfold WordPiece.mergeRun
      match l, hnc with
      | [], _ => rfl
      | [x], _ => rfl
      | x :: y :: rest, hnc => exact (hnc x y rest rfl).elim
    rw [hself] at hok
    cases hok
    rfl

theorem wordTok_append {a b : String} (ha : wordTok a) (hb : wordTok b) :
    wordTok (a ++ b) := by
  constructor
  · rw [String.data_append]
    intro hcontra
    exact ha.1 (List.append_eq_nil.mp hcontra).1
  · rw [String.data_append]
    intro c hc
    rcases List.mem_append.mp hc with h | h
    · exact ha.2 c h
    · exact hb.2 c h

theorem shapeTok_wordTok {t : String} (hs : shapeTok t)
    (hnb : WordPiece.isBoundaryTok t = false) : wordTok t := by
  rcases hs with h | h
  · rw [h] at hnb; exact Bool.noConfusion hnb
  · exact h

theorem mergeRun_ok_shape (a b nt : String) (hnt : nt = a ++ b)
    (ha : WordPiece.isBoundaryTok a = false) (hb : WordPiece.isBoundaryTok b = false) :
    ∀ (m : Dict String Int) (ts : List String), ∀ (m' : Dict String Int) (ts' : List String),
      WordPiece.mergeRun a b nt m ts = .ok (m', ts') →
      (∀ t ∈ ts, shapeTok t) → ∀ t ∈ ts', shapeTok t := by
  refine WordPiece.mergeRun.induct a b nt
    (fun m ts => ∀ m' ts', WordPiece.mergeRun a b nt m ts = .ok (m', ts') →
      (∀ t ∈ ts, shapeTok t) → ∀ t ∈ ts', shapeTok t) ?_ ?_ ?_
  · intro m x y rest hxy ih m' ts' hok hshape t ht
    unfold WordPiece.mergeRun at hok
    rw [if_pos hxy] at hok
    obtain ⟨m1, hm1, hok⟩ := pyBind_ok hok
    obtain ⟨pr, hrec, hok⟩ := pyBind_ok hok
    obtain ⟨mr, tsr⟩ := pr
    cases hok
    have hx : x = a := eq_of_beq (Bool.and_elim_left hxy)
    have hy : y = b := eq_of_beq (Bool.and_elim_right hxy)
    rcases List.mem_cons.mp ht with rfl | ht
    · right
      rw [hnt]
      refine wordTok_append ?_ ?_
      · exact shapeTok_wordTok (hx ▸ hshape x (List.mem_cons_self _ _)) ha
      · exact shapeTok_wordTok (hy ▸ hshape y (by simp)) hb
    · refine ih m1 m' tsr hrec ?_ t ht
      intro u hu
      exact hshape u (by simp [hu])
  · intro m x y rest hxy ih m' ts' hok hshape t ht
    unfold WordPiece.mergeRun at hok
    rw [if_neg hxy] at hok
    obtain ⟨pr, hrec, hok⟩ := pyBind_ok hok
    obtain ⟨mr, tsr⟩ := pr
    cases hok
    rcases List.mem_cons.mp ht with rfl | ht
    · exact hshape t (List.mem_cons_self _ _)
    · refine ih m' tsr hrec ?_ t ht
      intro u hu
      exact hshape u (by simp [List.mem_cons.mp hu])
  · intro m l hnc m' ts' hok hshape t ht
    have hself : WordPiece.mergeRun a b nt m l = .ok (m, l) := by
      unfold WordPiece.mergeRun
      match l, hnc with
      | [], _ => rfl
      | [x], _ => rfl
      | x :: y :: rest, hnc => exact (hnc x y rest rfl).elim
    rw [hself] at hok
    cases hok
    exact hshape t ht

theorem addNewTokenPair_ok_join {pr : String × String} {m m' : Dict String Int}
    {ts ts' : List String}
    (hok : WordPiece.add_new_token_pair pr m ts = .ok (m', ts')) :
    (ts'.map String.data).flatten = (ts.map String.data).flatten := by
  unfold WordPiece.add_new_token_pair at hok
  split at hok
  · cases hok; rfl
  · exact mergeRun_ok_join pr.1 pr.2 (pr.1 ++ pr.2) rfl m ts m' ts' hok

theorem addNewTokenPair_ok_shape {pr : String × String} {m m' : Dict String Int}
    {ts ts' : List String}
    (hok : WordPiece.add_new_token_pair pr m ts = .ok (m', ts'))
    (hshape : ∀ t ∈ ts, shapeTok t) : ∀ t ∈ ts', shapeTok t := by
  unfold WordPiece.add_new_token_pair at hok
  split at hok
  · cases hok; exact hshape
  · rename_i hguard
    rw [Bool.or_eq_true, not_or] at hguard
    exact mergeRun_ok_shape pr.1 pr.2 (pr.1 ++ pr.2) rfl
      (Bool.not_eq_true _ ▸ Bool.of_not_eq_true hguard.1)
      (Bool.not_eq_true _ ▸ Bool.of_not_eq_true hguard.2)
      m ts m' ts' hok hshape

theorem segmentLoop_ok_join :
    ∀ (n : Nat) (m : Dict String Int) (ts ts' : List String),
      WordPiece.segmentLoop m ts n = .ok ts' →
      (ts'.map String.data).flatten = (ts.map String.data).flatten := by
  intro n
  induction n with
  | zero =>
    intro m ts ts' hok
    cases hok
    rfl
  | succ k ih =>
    intro m ts ts' hok
    unfold WordPiece.segmentLoop at hok
    obtain ⟨pr?, hfind, hok⟩ := pyBind_ok hok
    cases pr? with
    | none => cases hok; rfl
    | some pr =>
      obtain ⟨st, hadd, hok⟩ := pyBind_ok hok
      obtain ⟨m1, ts1⟩ := st
      rw [ih m1 ts1 ts' hok]
      exact addNewTokenPair_ok_join hadd

theorem segmentLoop_ok_shape :
    ∀ (n : Nat) (m : Dict String Int) (ts ts' : List String),
      WordPiece.segmentLoop m ts n = .ok ts' →
      (∀ t ∈ ts, shapeTok t) → ∀ t ∈ ts', shapeTok t := by
  intro n
  induction n with
  | zero =>
    intro m ts ts' hok hshape
    cases hok
    exact hshape
  | succ k ih =>
    intro m ts ts' hok hshape
    unfold WordPiece.segmentLoop at hok
    obtain ⟨pr?, hfind, hok⟩ := pyBind_ok hok
    cases pr? with
    | none => cases hok; exact hshape
    | some pr =>
      obtain ⟨st, hadd, hok⟩ := pyBind_ok hok
      obtain ⟨m1, ts1⟩ := st
      exact ih m1 ts1 ts' hok (addNewTokenPair_ok_shape hadd hshape)

/-!
## Lemmas: character and prefix bookkeeping
-/

theorem singleton_data (c : Char) : (String.singleton c).data = [c] := rfl

theorem shapeTok_singleton (c : Char) : shapeTok (String.singleton c) := by
  by_cases hw : WordPiece.isWordChar c = true
  · right
    refine ⟨by rw [singleton_data]; simp, ?_⟩
    intro d hd
    rw [singleton_data] at hd
    rw [List.mem_singleton.mp hd]
    exact hw
  · left
    show WordPiece.isBoundaryTok ⟨[c]⟩ = true
    unfold WordPiece.isBoundaryTok
    have hw' : WordPiece.isWordChar c = false := Bool.of_not_eq_true hw
    cases hsp : c.isWhitespace <;> simp [hw', hsp]

theorem initial_shape (cs : List Char) :
    ∀ t ∈ cs.map String.singleton, shapeTok t := by
  intro t ht
  obtain ⟨c, _, rfl⟩ := List.mem_map.mp ht
  exact shapeTok_singleton c

theorem initial_join (cs : List Char) :
    ((cs.map String.singleton).map String.data).flatten = cs := by
  induction cs with
  | nil => rfl
  | cons c rest ih =>
    simp only [List.map_cons, singleton_data, List.flatten_cons, ih,
      List.singleton_append]

theorem boundary_data {t : String} (h : WordPiece.isBoundaryTok t = true) :
    ∃ c, t.data = [c] := by
  unfold WordPiece.isBoundaryTok at h
  cases hd : t.data with
  | nil => rw [hd] at h; exact Bool.noConfusion h
  | cons c cs =>
    cases cs with
    | nil => exact ⟨c, by simp [hd]⟩
    | cons d ds => rw [hd] at h; exact Bool.noConfusion h

theorem hh_data : ("##" : String).data = ['#', '#'] := rfl

theorem boundary_not_startsWith {t : String}
    (h : WordPiece.isBoundaryTok t = true) : pyStartsWith t "##" = false := by
  obtain ⟨c, hd⟩ := boundary_data h
  unfold pyStartsWith
  rw [hd, hh_data]
  simp [List.isPrefixOf]

theorem wordTok_not_startsWith {t : String} (h : wordTok t) :
    pyStartsWith t "##" = false := by
  unfold pyStartsWith
  cases hd : t.data with
  | nil => exact absurd hd h.1
  | cons c cs =>
    have hc : WordPiece.isWordChar c = true := h.2 c (by rw [hd]; exact List.mem_cons_self _ _)
    rw [hh_data]
    by_cases hcc : ('#' : Char) = c
    · rw [← hcc] at hc
      exact absurd hc (by decide)
    · simp [List.isPrefixOf, hcc]

theorem shapeTok_not_startsWith {t : String} (h : shapeTok t) :
    pyStartsWith t "##" = false := by
  rcases h with h | h
  · exact boundary_not_startsWith h
  · exact wordTok_not_startsWith h

theorem startsWith_hh_append (t : String) : pyStartsWith ("##" ++ t) "##" = true := by
  unfold pyStartsWith
  rw [String.data_append, hh_data]
  simp [List.isPrefixOf]

theorem mk_data (t : String) : String.mk t.data = t := by
  cases t
  rfl

theorem dropStr_hh_append (t : String) : pyDropStr ("##" ++ t) 2 = t := by
  unfold pyDropStr
  rw [String.data_append, hh_data]
  show String.mk (('#' :: '#' :: t.data).drop 2) = t
  rw [List.drop_succ_cons, List.drop_succ_cons, List.drop_zero]

/-!
## Lemmas: add_prefixes and decode
-/

theorem addPrefixesGo_cons_boundary {t : String} (rest : List String) (flag : Bool)
    (h : WordPiece.isBoundaryTok t = true) :
    WordPiece.addPrefixesGo flag (t :: rest) =
      t :: WordPiece.addPrefixesGo true rest := by
  conv_lhs => unfold WordPiece.addPrefixesGo
  rw [if_pos h]

theorem addPrefixesGo_cons_word_start {t : String} (rest : List String)
    (h : WordPiece.isBoundaryTok t = false) :
    WordPiece.addPrefixesGo true (t :: rest) =
      t :: WordPiece.addPrefixesGo false rest := by
  conv_lhs => unfold WordPiece.addPrefixesGo
  rw [if_neg (by rw [h]; exact Bool.false_ne_true), if_pos rfl]

theorem addPrefixesGo_cons_word_cont {t : String} (rest : List String)
    (h : WordPiece.isBoundaryTok t = false) :
    WordPiece.addPrefixesGo false (t :: rest) =
      ("##" ++ t) :: WordPiece.addPrefixesGo false rest := by
  conv_lhs => unfold WordPiece.addPrefixesGo
  rw [if_neg (by rw [h]; exact Bool.false_ne_true), if_neg Bool.false_ne_true]

theorem decodeGo_cons_plain {t : String} (acc rest : List String)
    (h : pyStartsWith t "##" = false) :
    WordPiece.decodeGo acc (t :: rest) = WordPiece.decodeGo (t :: acc) rest := by
  conv_lhs => unfold WordPiece.decodeGo
  rw [if_neg (by rw [h]; exact Bool.false_ne_true)]

theorem decodeGo_cons_cont {t last : String} (more rest : List String)
    (h : pyStartsWith t "##" = true) :
    WordPiece.decodeGo (last :: more) (t :: rest) =
      WordPiece.decodeGo ((last ++ pyDropStr t 2) :: more) rest := by
  conv_lhs => unfold WordPiece.decodeGo
  rw [if_pos h]

theorem decodeGo_addPrefixes :
    ∀ (ts : List String), (∀ t ∈ ts, shapeTok t) →
    ∀ (flag : Bool) (acc : List String), (flag = false → acc ≠ []) →
    ∃ acc', WordPiece.decodeGo acc (WordPiece.addPrefixesGo flag ts) = .ok acc' ∧
      (acc'.reverse.map String.data).flatten =
        (acc.reverse.map String.data).flatten ++ (ts.map String.data).flatten := by
  intro ts
  induction ts with
  | nil =>
    intro _ flag acc _
    refine ⟨acc, rfl, by simp⟩
  | cons t rest ih =>
    intro hshape flag acc hacc
    have hrest : ∀ u ∈ rest, shapeTok u := fun u hu => hshape u (List.mem_cons_of_mem _ hu)
    have hts : shapeTok t := hshape t (List.mem_cons_self _ _)
    by_cases hbt : WordPiece.isBoundaryTok t = true
    · rw [addPrefixesGo_cons_boundary rest flag hbt,
        decodeGo_cons_plain acc _ (boundary_not_startsWith hbt)]
      obtain ⟨acc', hgo, hjoin⟩ := ih hrest true (t :: acc) (by intro hcontra; exact Bool.noConfusion hcontra)
      refine ⟨acc', hgo, ?_⟩
      rw [hjoin]
      simp [List.append_assoc]
    · have hbt' : WordPiece.isBoundaryTok t = false := Bool.of_not_eq_true hbt
      have hword : wordTok t := shapeTok_wordTok hts hbt'
      cases flag with
      | true =>
        rw [addPrefixesGo_cons_word_start rest hbt',
          decodeGo_cons_plain acc _ (wordTok_not_startsWith hword)]
        obtain ⟨acc', hgo, hjoin⟩ := ih hrest false (t :: acc) (fun _ => List.cons_ne_nil _ _)
        refine ⟨acc', hgo, ?_⟩
        rw [hjoin]
        simp [List.append_assoc]
      | false =>
        rw [addPrefixesGo_cons_word_cont rest hbt']
        obtain ⟨last, more, rfl⟩ : ∃ last more, acc = last :: more := by
          cases acc with
          | nil => exact absurd rfl (hacc rfl)
          | cons a as => exact ⟨a, as, rfl⟩
        rw [decodeGo_cons_cont more _ (startsWith_hh_append t), dropStr_hh_append t]
        obtain ⟨acc', hgo, hjoin⟩ := ih hrest false ((last ++ t) :: more) (fun _ => List.cons_ne_nil _ _)
        refine ⟨acc', hgo, ?_⟩
        rw [hjoin]
        simp [List.append_assoc, String.data_append]

theorem addPrefixesGo_strip :
    ∀ (ts : List String), (∀ t ∈ ts, shapeTok t) → ∀ (flag : Bool),
      (WordPiece.addPrefixesGo flag ts).map
        (fun p => if pyStartsWith p "##" = true then pyDropStr p 2 else p) = ts := by
  intro ts
  induction ts with
  | nil => intro _ flag; cases flag <;> rfl
  | cons t rest ih =>
    intro hshape flag
    have hrest : ∀ u ∈ rest, shapeTok u := fun u hu => hshape u (List.mem_cons_of_mem _ hu)
    have hts : shapeTok t := hshape t (List.mem_cons_self _ _)
    by_cases hbt : WordPiece.isBoundaryTok t = true
    · rw [addPrefixesGo_cons_boundary rest flag hbt, List.map_cons,
        if_neg (by rw [boundary_not_startsWith hbt]; exact Bool.false_ne_true),
        ih hrest true]
    · have hbt' : WordPiece.isBoundaryTok t = false := Bool.of_not_eq_true hbt
      have hword : wordTok t := shapeTok_wordTok hts hbt'
      cases flag with
      | true =>
        rw [addPrefixesGo_cons_word_start rest hbt', List.map_cons,
          if_neg (by rw [wordTok_not_startsWith hword]; exact Bool.false_ne_true),
          ih hrest false]
      | false =>
        rw [addPrefixesGo_cons_word_cont rest hbt', List.map_cons,
          if_pos (startsWith_hh_append t), dropStr_hh_append t, ih hrest false]

theorem addPrefixesGo_mem :
    ∀ (ts : List String), (∀ t ∈ ts, shapeTok t) → ∀ (flag : Bool),
      ∀ p ∈ WordPiece.addPrefixesGo flag ts,
        (WordPiece.isBoundaryTok p = true ∧ pyStartsWith p "##" = false) ∨
        (wordTok p ∧ pyStartsWith p "##" = false) ∨
        (∃ t, wordTok t ∧ p = "##" ++ t) := by
  intro ts
  induction ts with
  | nil =>
    intro _ flag p hp
    cases flag <;> simp [WordPiece.addPrefixesGo] at hp
  | cons t rest ih =>
    intro hshape flag p hp
    have hrest : ∀ u ∈ rest, shapeTok u := fun u hu => hshape u (List.mem_cons_of_mem _ hu)
    have hts : shapeTok t := hshape t (List.mem_cons_self _ _)
    by_cases hbt : WordPiece.isBoundaryTok t = true
    · rw [addPrefixesGo_cons_boundary rest flag hbt] at hp
      rcases List.mem_cons.mp hp with rfl | hp
      · exact Or.inl ⟨hbt, boundary_not_startsWith hbt⟩
      · exact ih hrest true p hp
    · have hbt' : WordPiece.isBoundaryTok t = false := Bool.of_not_eq_true hbt
      have hword : wordTok t := shapeTok_wordTok hts hbt'
      cases flag with
      | true =>
        rw [addPrefixesGo_cons_word_start rest hbt'] at hp
        rcases List.mem_cons.mp hp with rfl | hp
        · exact Or.inr (Or.inl ⟨hword, wordTok_not_startsWith hword⟩)
        · exact ih hrest false p hp
      | false =>
        rw [addPrefixesGo_cons_word_cont rest hbt'] at hp
        rcases List.mem_cons.mp hp with rfl | hp
        · exact Or.inr (Or.inr ⟨t, hword, rfl⟩)
        · exact ih hrest false p hp

/-!
## Lemmas: WordPiece segment, encode and decode assembled
-/

theorem segment_ok_parts {text : String} {n : Nat} {pieces : List String}
    (hok : WordPiece.segment text n = .ok pieces) :
    ∃ merged,
      WordPiece.segmentLoop (WordPiece.initFreq (text.data.map String.singleton))
        (text.data.map String.singleton) n = .ok merged ∧
      pieces = WordPiece.add_prefixes merged ∧
      (merged.map String.data).flatten = text.data ∧
      (∀ t ∈ merged, shapeTok t) := by
  unfold WordPiece.segment at hok
  obtain ⟨merged, hloop, hok⟩ := pyBind_ok hok
  cases hok
  refine ⟨merged, hloop, rfl, ?_, ?_⟩
  · rw [segmentLoop_ok_join n _ _ _ hloop, initial_join]
  · exact segmentLoop_ok_shape n _ _ _ hloop (initial_shape _)

theorem decodeGo_total_nonempty :
    ∀ (tokens : List String) (last : String) (more : List String),
      ∃ r, WordPiece.decodeGo (last :: more) tokens = .ok r := by
  intro tokens
  induction tokens with
  | nil => intro last more; exact ⟨last :: more, rfl⟩
  | cons t rest ih =>
    intro last more
    by_cases h : pyStartsWith t "##" = true
    · rw [decodeGo_cons_cont more rest h]
      exact ih _ _
    · rw [decodeGo_cons_plain (last :: more) rest (Bool.of_not_eq_true h)]
      exact ih _ _

theorem decode_total_of_first_plain (v : Vocabulary) (token_ids : List (Option Int))
    (h : ∀ id0 rest, token_ids = id0 :: rest →
      pyStartsWith (v.get_token id0) "##" = false) :
    ∃ s, WordPiece.decode v token_ids = .ok s := by
  unfold WordPiece.decode
  cases token_ids with
  | nil => exact ⟨"", rfl⟩
  | cons id0 rest =>
    show ∃ s, (do
      let decoded_text ← WordPiece.decodeGo []
        (v.get_token id0 :: rest.map (fun id => v.get_token id))
      Except.ok (pyJoin decoded_text.reverse)) = Except.ok s
    rw [decodeGo_cons_plain [] _ (h id0 rest rfl)]
    obtain ⟨r, hr⟩ := decodeGo_total_nonempty (rest.map (fun id => v.get_token id)) (v.get_token id0) []
    rw [hr]
    exact ⟨pyJoin r.reverse, rfl⟩

/-!
## Lemmas: the greedy longest-match encoder
-/

theorem encodeFindMatch_eq (v : Vocabulary) (cs : List Char) (left : Nat) :
    ∀ n : Nat,
      Tokenizer.encodeFindMatch v cs left n =
        (if Nat.findGreatest
            (fun l => 0 < l ∧ v.get_id (pySubstr cs left (left + l)) ≠ v.UNKNOWN_ID) n = 0
         then none
         else some (v.get_id (pySubstr cs left
            (left + Nat.findGreatest
              (fun l => 0 < l ∧ v.get_id (pySubstr cs left (left + l)) ≠ v.UNKNOWN_ID) n)),
            Nat.findGreatest
              (fun l => 0 < l ∧ v.get_id (pySubstr cs left (left + l)) ≠ v.UNKNOWN_ID) n - 1)) := by
  intro n
  induction n with
  | zero => simp [Tokenizer.encodeFindMatch, Nat.findGreatest]
  | succ k ih =>
    rw [Nat.findGreatest_succ]
    have hassoc : left + (k + 1) = left + k + 1 := by omega
    by_cases hid : v.get_id (pySubstr cs left (left + k + 1)) ≠ v.UNKNOWN_ID
    · have hP : 0 < k + 1 ∧ v.get_id (pySubstr cs left (left + (k + 1))) ≠ v.UNKNOWN_ID :=
        ⟨Nat.succ_pos k, by rw [hassoc]; exact hid⟩
      rw [if_pos hP]
      simp only [Tokenizer.encodeFindMatch]
      rw [if_pos hid, if_neg (Nat.succ_ne_zero k), hassoc]
      simp
    · have hP : ¬ (0 < k + 1 ∧ v.get_id (pySubstr cs left (left + (k + 1))) ≠ v.UNKNOWN_ID) := by
        intro hc
        apply hid
        rw [← hassoc]
        exact hc.2
      rw [if_neg hP]
      simp only [Tokenizer.encodeFindMatch]
      rw [if_neg hid]
      exact ih

theorem encodeLoop_eq_greedy (v : Vocabulary) (cs : List Char) :
    ∀ left : Nat,
      Tokenizer.encodeLoop v cs left = (greedyPieces v cs left).map Prod.snd := by
  refine greedyPieces.induct v cs
    (fun left => Tokenizer.encodeLoop v cs left = (greedyPieces v cs left).map Prod.snd)
    ?_ ?_ ?_
  · intro left hlt L hL0 ih
    have hgm : greedyMatchLen v cs left = Nat.findGreatest
        (fun l => 0 < l ∧ v.get_id (pySubstr cs left (left + l)) ≠ v.UNKNOWN_ID)
        (cs.length - left) := rfl
    have hL0' : greedyMatchLen v cs left = 0 := hL0
    have hFG : Nat.findGreatest
        (fun l => 0 < l ∧ v.get_id (pySubstr cs left (left + l)) ≠ v.UNKNOWN_ID)
        (cs.length - left) = 0 := by rw [← hgm]; exact hL0'
    unfold Tokenizer.encodeLoop
    rw [dif_pos hlt, encodeFindMatch_eq v cs left (cs.length - left), if_pos hFG]
    unfold greedyPieces
    rw [dif_pos hlt, dif_pos hL0', List.map_cons]
    exact congrArg _ ih
  · intro left hlt L hL0 ih
    have hgm : greedyMatchLen v cs left = Nat.findGreatest
        (fun l => 0 < l ∧ v.get_id (pySubstr cs left (left + l)) ≠ v.UNKNOWN_ID)
        (cs.length - left) := rfl
    have hL0' : ¬ greedyMatchLen v cs left = 0 := hL0
    have hFG : ¬ Nat.findGreatest
        (fun l => 0 < l ∧ v.get_id (pySubstr cs left (left + l)) ≠ v.UNKNOWN_ID)
        (cs.length - left) = 0 := by rw [← hgm]; exact hL0'
    unfold Tokenizer.encodeLoop
    rw [dif_pos hlt, encodeFindMatch_eq v cs left (cs.length - left), if_neg hFG]
    unfold greedyPieces
    rw [dif_pos hlt, dif_neg hL0', List.map_cons, hgm]
    show v.get_id (pySubstr cs left
        (left + Nat.findGreatest
          (fun l => 0 < l ∧ v.get_id (pySubstr cs left (left + l)) ≠ v.UNKNOWN_ID)
          (cs.length - left))) ::
      Tokenizer.encodeLoop v cs
        (left + (Nat.findGreatest
          (fun l => 0 < l ∧ v.get_id (pySubstr cs left (left + l)) ≠ v.UNKNOWN_ID)
          (cs.length - left) - 1) + 1) = _
    have harith : left + (Nat.findGreatest
        (fun l => 0 < l ∧ v.get_id (pySubstr cs left (left + l)) ≠ v.UNKNOWN_ID)
        (cs.length - left) - 1) + 1 =
        left + Nat.findGreatest
          (fun l => 0 < l ∧ v.get_id (pySubstr cs left (left + l)) ≠ v.UNKNOWN_ID)
          (cs.length - left) := by
      have := hFG
      omega
    rw [harith]
    refine congrArg _ ?_
    exact ih
  · intro left hge
    unfold Tokenizer.encodeLoop greedyPieces
    rw [dif_neg hge, dif_neg hge]
    rfl

theorem drop_take_append (cs : List Char) (i j : Nat) (hij : i ≤ j) :
    (cs.take j).drop i ++ cs.drop j = cs.drop i := by
  rw [List.drop_take]
  have hd : cs.drop j = (cs.drop i).drop (j - i) := by
    rw [List.drop_drop]
    congr 1
    omega
  rw [hd]
  exact List.take_append_drop _ _

theorem greedyPieces_join (v : Vocabulary) (cs : List Char) :
    ∀ left : Nat,
      ((greedyPieces v cs left).map (fun p => p.1.data)).flatten = cs.drop left := by
  refine greedyPieces.induct v cs
    (fun left => ((greedyPieces v cs left).map (fun p => p.1.data)).flatten = cs.drop left)
    ?_ ?_ ?_
  · intro left hlt L hL0 ih
    have hL0' : greedyMatchLen v cs left = 0 := hL0
    unfold greedyPieces
    rw [dif_pos hlt, dif_pos hL0', List.map_cons, List.flatten_cons, ih]
    show (cs.take (left + 1)).drop left ++ cs.drop (left + 1) = cs.drop left
    exact drop_take_append cs left (left + 1) (by omega)
  · intro left hlt L hL0 ih
    have hL0' : ¬ greedyMatchLen v cs left = 0 := hL0
    unfold greedyPieces
    rw [dif_pos hlt, dif_neg hL0', List.map_cons, List.flatten_cons]
    have hih : ((greedyPieces v cs (left + greedyMatchLen v cs left)).map
        (fun p => p.1.data)).flatten = cs.drop (left + greedyMatchLen v cs left) := ih
    rw [hih]
    show (cs.take (left + greedyMatchLen v cs left)).drop left ++
      cs.drop (left + greedyMatchLen v cs left) = cs.drop left
    exact drop_take_append cs left (left + greedyMatchLen v cs left) (by omega)
  · intro left hge
    unfold greedyPieces
    rw [dif_neg hge]
    rw [List.drop_eq_nil_of_le (by omega)]
    rfl

/-!
## Lemmas: the untrained vocabulary
-/

theorem fresh_get_id (ms : Int) (t : String) : (Vocabulary.init ms).get_id t = none := rfl

theorem fresh_get_token (ms : Int) (id : Option Int) :
    (Vocabulary.init ms).get_token id = "<UNK>" := by
  cases id <;> rfl

theorem fresh_encodeFindMatch (ms : Int) (cs : List Char) (left : Nat) :
    ∀ n : Nat, Tokenizer.encodeFindMatch (Vocabulary.init ms) cs left n = none := by
  intro n
  induction n with
  | zero => rfl
  | succ k ih =>
    unfold Tokenizer.encodeFindMatch
    rw [if_neg]
    · exact ih
    · intro hcontra
      exact hcontra (fresh_get_id ms _)

theorem fresh_encodeLoop (ms : Int) (cs : List Char) :
    ∀ left : Nat,
      Tokenizer.encodeLoop (Vocabulary.init ms) cs left =
        List.replicate (cs.length - left) none := by
  refine Tokenizer.encodeLoop.induct (Vocabulary.init ms) cs
    (fun left => Tokenizer.encodeLoop (Vocabulary.init ms) cs left =
      List.replicate (cs.length - left) none) ?_ ?_ ?_
  · intro left hlt tid k hfind _
    rw [fresh_encodeFindMatch ms cs left (cs.length - left)] at hfind
    exact Option.noConfusion hfind
  · intro left hlt _ ih
    unfold Tokenizer.encodeLoop
    rw [dif_pos hlt, fresh_encodeFindMatch ms cs left (cs.length - left)]
    have hrep : cs.length - left = (cs.length - (left + 1)) + 1 := by omega
    rw [ih, hrep, List.replicate_succ]
    rfl
  · intro left hge
    unfold Tokenizer.encodeLoop
    rw [dif_neg hge]
    have : cs.length - left = 0 := by omega
    rw [this]
    rfl

/-!
## Lemmas: slice lengths
-/

theorem pySliceTo_length_nonneg {α : Type} (xs : List α) {k : Int} (h : 0 ≤ k) :
    (pySliceTo xs k).length = min k.toNat xs.length := by
  unfold pySliceTo
  rw [if_pos h]
  exact List.length_take _ _

theorem pySliceTo_length_neg {α : Type} (xs : List α) {k : Int} (h : k < 0) :
    (pySliceTo xs k).length = xs.length - (-k).toNat := by
  unfold pySliceTo
  rw [if_neg (by omega)]
  rw [List.length_take]
  omega

theorem whitespace_not_wordChar {c : Char} (h : c.isWhitespace = true) :
    WordPiece.isWordChar c = false := by
  unfold Char.isWhitespace at h
  simp only [Bool.or_eq_true, decide_eq_true_eq] at h
  rcases h with ((h | h) | h) | h <;> (rw [h]; decide)

theorem wordChar_not_whitespace {c : Char} (h : WordPiece.isWordChar c = true) :
    c.isWhitespace = false := by
  cases hsp : c.isWhitespace with
  | false => rfl
  | true => rw [whitespace_not_wordChar hsp] at h; exact Bool.noConfusion h

theorem wordTok_not_boundary {t : String} (h : wordTok t) :
    WordPiece.isBoundaryTok t = false := by
  unfold WordPiece.isBoundaryTok
  cases hd : t.data with
  | nil => rfl
  | cons c cs =>
    cases cs with
    | nil =>
      have hc : WordPiece.isWordChar c = true := h.2 c (by rw [hd]; simp)
      simp [hc, wordChar_not_whitespace hc]
    | cons d ds => rfl

/-!
## The claims
-/

/-- C1: training BytePairEncoding(max_num_merges=2) on
"hello, elmo -- I love bacon!" and segmenting that text is specified to
produce the merges el and lo and the 24-token segmentation; the source's
segment, however, iterates the integer max_num_merges itself
('for _ in max_num_merges:'), a TypeError on every call, so the claim
describes the intended loop (range(max_num_merges), as the repository's
own tests exercise): first conjunct is what the code does, the remaining
conjuncts prove the claim's scenario against the repaired loop, whose
loop body is the source's own find_most_frequent_token_pair and
add_new_token_pair. -/
theorem claim_C1_bpe_literal_scenario :
    BytePairEncoding.segment "hello, elmo -- I love bacon!" 2 = .error .typeError ∧
    BytePairEncoding.learn "hello, elmo -- I love bacon!" 2 = .error .typeError ∧
    BytePairEncoding.segmentIntended "hello, elmo -- I love bacon!" 2 =
      .ok ["h", "el", "lo", ",", " ", "el", "m", "o", " ", "-", "-", " ",
           "I", " ", "lo", "v", "e", " ", "b", "a", "c", "o", "n", "!"] ∧
    (BytePairEncoding.learnIntended "hello, elmo -- I love bacon!" 2).map
      (fun v => v.token_2_id_map) = .ok
      [("<UNK>", 0), ("<PAD>", 1), ("<BOS>", 2), ("<EOS>", 3),
       (" ", 4), ("!", 5), (",", 6), ("-", 7), ("I", 8), ("a", 9),
       ("b", 10), ("c", 11), ("e", 12), ("el", 13), ("h", 14),
       ("lo", 15), ("m", 16), ("n", 17), ("o", 18), ("v", 19)] :=
  ⟨rfl, rfl, by decide, by decide⟩

/-- C9 counterexample: the claim says UnigramLanguageModeling.segment
signals a not-implemented failure; in the source its body is the single
statement pass, so it silently returns None and learn then builds the
specials-only vocabulary of size 4 without any error. -/
theorem claim_C9_counterexample :
    UnigramLanguageModeling.segment "some text" = .ok none ∧
    (UnigramLanguageModeling.learn "some text").map (fun v => v.size) = .ok 4 :=
  ⟨rfl, by decide⟩

/-- C9 as amended: calling segment on the abstract Tokenizer base raises
NotImplementedError (and learn through it propagates that error), but
UnigramLanguageModeling.segment is a silent no-op returning None, and its
learn builds the four-token specials-only vocabulary without error. -/
theorem claim_C9_not_implemented_amended (text : String) :
    Tokenizer.segment text = .error .notImplementedError ∧
    Tokenizer.learn text = .error .notImplementedError ∧
    UnigramLanguageModeling.segment text = .ok none ∧
    UnigramLanguageModeling.learn text = .ok (Tokenizer.initVocab.build none) ∧
    (Tokenizer.initVocab.build none).size = 4 :=
  ⟨rfl, rfl, rfl, rfl, by decide⟩

/-- C10: on a freshly constructed Vocabulary, UNKNOWN_ID is None, get_id
returns None for every token, get_token returns the unknown-token string
for every id, and the default Tokenizer.encode emits len(text) copies of
None. -/
theorem claim_C10_untrained (token : String) (id : Option Int) (text : String) :
    Tokenizer.initVocab.UNKNOWN_ID = none ∧
    Tokenizer.initVocab.get_id token = none ∧
    Tokenizer.initVocab.get_token id = "<UNK>" ∧
    Tokenizer.encode Tokenizer.initVocab text = List.replicate text.length none := by
  refine ⟨rfl, rfl, fresh_get_token 10000 id, ?_⟩
  unfold Tokenizer.encode
  show Tokenizer.encodeLoop (Vocabulary.init 10000) text.data 0 =
    List.replicate text.length none
  rw [fresh_encodeLoop 10000 text.data 0]
  rfl

/-- C5: the default Tokenizer.encode equals the greedy longest-match
policy stated by the spec (greedyPieces): at each cursor position it
selects the longest substring with a known (non-UNK) id, or emits the
UNK id and advances one character; and it consumes every character
exactly once, since the chosen substrings concatenate back to the whole
text. -/
theorem claim_C5_greedy_encode (v : Vocabulary) (text : String) :
    Tokenizer.encode v text = (greedyPieces v text.data 0).map Prod.snd ∧
    pyJoin ((greedyPieces v text.data 0).map Prod.fst) = text := by
  constructor
  · exact encodeLoop_eq_greedy v text.data 0
  · unfold pyJoin
    have h1 : ((greedyPieces v text.data 0).map Prod.fst).map String.data =
        (greedyPieces v text.data 0).map (fun p => p.1.data) := by
      rw [List.map_map]
      rfl
    rw [h1, greedyPieces_join v text.data 0, List.drop_zero]

/-- C6: for every list of training tokens T (and any max_size), after
build the four special tokens hold ids 0, 1, 2, 3 in the order UNK, PAD,
BOS, EOS, each appears exactly once among the keys, every non-special
token receives an id at least 4, and the two maps are exact inverses. -/
theorem claim_C6_special_tokens (M : Int) (T : List String) :
    (dictGet? ((Vocabulary.init M).build (some T)).token_2_id_map "<UNK>" = some 0 ∧
     dictGet? ((Vocabulary.init M).build (some T)).token_2_id_map "<PAD>" = some 1 ∧
     dictGet? ((Vocabulary.init M).build (some T)).token_2_id_map "<BOS>" = some 2 ∧
     dictGet? ((Vocabulary.init M).build (some T)).token_2_id_map "<EOS>" = some 3) ∧
    (∀ s ∈ specialTokens,
      (((Vocabulary.init M).build (some T)).token_2_id_map.map Prod.fst).count s = 1) ∧
    (∀ (t : String) (i : Int), t ∉ specialTokens →
      dictGet? ((Vocabulary.init M).build (some T)).token_2_id_map t = some i → 4 ≤ i) ∧
    (∀ (t : String) (i : Int),
      dictGet? ((Vocabulary.init M).build (some T)).token_2_id_map t = some i ↔
      dictGet? ((Vocabulary.init M).build (some T)).id_2_token_map i = some t) := by
  refine ⟨?_, ?_, ?_, ?_⟩
  · rw [build_t2i]
    exact built_special_ids M T
  · intro s hs
    rw [build_t2i, vocabPairs_map_fst]
    refine List.count_eq_one_of_mem (allTokens_nodup M T) ?_
    unfold allTokens
    exact List.mem_append_left _ hs
  · intro t i ht h
    rw [build_t2i] at h
    exact built_nonspecial_id_ge M T ht h
  · intro t i
    exact built_inverse M T t i

/-- C6 witness: concrete instance with max_size 8 and two ordinary
tokens; the non-special token receives id 4 and the maps invert. -/
theorem claim_C6_witness :
    (4 : Int) ≤ 4 ∧
    dictGet? ((Vocabulary.init 8).build (some ["hello", "world"])).id_2_token_map 4 =
      some "hello" :=
  ⟨(claim_C6_special_tokens 8 ["hello", "world"]).2.2.1 "hello" 4 (by decide) (by decide),
   ((claim_C6_special_tokens 8 ["hello", "world"]).2.2.2 "hello" 4).mp (by decide)⟩

/-- C7: for max_size at least 4, the built vocabulary holds the four
specials plus the deduplicated, sorted remainder truncated to
max_size - 4, so its size lies between 4 and max_size. -/
theorem claim_C7_vocab_bound (M : Int) (T : List String) (hM : 4 ≤ M) :
    4 ≤ ((Vocabulary.init M).build (some T)).size ∧
    (((Vocabulary.init M).build (some T)).size : Int) ≤ M ∧
    ((Vocabulary.init M).build (some T)).size =
      4 + min (M - 4).toNat
        ((T.filter (fun t => !(specialTokens.contains t))).dedup).length := by
  have hsize := built_size M T
  rw [pySliceTo_length_nonneg _ (by omega)] at hsize
  have hlen : (uniqueTokens T).length =
      ((T.filter (fun t => !(specialTokens.contains t))).dedup).length :=
    (uniqueTokens_perm T).length_eq
  rw [hlen] at hsize
  refine ⟨by omega, ?_, hsize⟩
  rw [hsize]
  have h1 : min (M - 4).toNat
      ((T.filter (fun t => !(specialTokens.contains t))).dedup).length ≤ (M - 4).toNat :=
    Nat.min_le_left _ _
  omega

/-- C7 witness: the concrete instance of the repository's own test,
max_size 8 with ten distinct one-character tokens. -/
theorem claim_C7_witness :
    4 ≤ ((Vocabulary.init 8).build
      (some ["a", "b", "c", "d", "e", "f", "g", "h", "i", "j"])).size ∧
    (((Vocabulary.init 8).build
      (some ["a", "b", "c", "d", "e", "f", "g", "h", "i", "j"])).size : Int) ≤ 8 ∧
    ((Vocabulary.init 8).build
      (some ["a", "b", "c", "d", "e", "f", "g", "h", "i", "j"])).size =
      4 + min ((8 : Int) - 4).toNat
        ((["a", "b", "c", "d", "e", "f", "g", "h", "i", "j"].filter
          (fun t => !(specialTokens.contains t))).dedup).length :=
  claim_C7_vocab_bound 8 ["a", "b", "c", "d", "e", "f", "g", "h", "i", "j"] (by decide)

/-- C8 counterexample: the claim says a max_size below 4 is rejected at
construction; in the source the constructor stores max_size 2 without
any validation (empty maps, no error), and build then runs anyway: the
Python slice unique_tokens[:2 - 4] drops two tokens from the end, the
four specials are still prepended, and the resulting size 5 exceeds the
requested capacity, a silent mistruncation rather than an error. -/
theorem claim_C8_counterexample :
    (Vocabulary.init 2).max_size = 2 ∧
    (Vocabulary.init 2).token_2_id_map = [] ∧
    ((Vocabulary.init 2).build (some ["a", "b", "c"])).size = 5 ∧
    ¬ ((((Vocabulary.init 2).build (some ["a", "b", "c"])).size : Int) ≤ 2) :=
  ⟨rfl, rfl, by decide, by decide⟩

/-- C8 as amended: construction accepts every max_size without
validation (the constructor only stores fields), and for max_size below
4 build silently applies the Python negative-slice semantics: it keeps
all the specials plus the unique tokens minus 4 - max_size entries
dropped from the end, so the size is 4 plus that truncated count, is
never below 4, and is not bounded by max_size. -/
theorem claim_C8_no_validation_amended (M : Int) (T : List String) (hM : M < 4) :
    (Vocabulary.init M).max_size = M ∧
    (Vocabulary.init M).token_2_id_map = [] ∧
    ((Vocabulary.init M).build (some T)).size =
      4 + (((T.filter (fun t => !(specialTokens.contains t))).dedup).length -
        (4 - M).toNat) ∧
    4 ≤ ((Vocabulary.init M).build (some T)).size := by
  have hsize := built_size M T
  rw [pySliceTo_length_neg _ (by omega)] at hsize
  have hlen : (uniqueTokens T).length =
      ((T.filter (fun t => !(specialTokens.contains t))).dedup).length :=
    (uniqueTokens_perm T).length_eq
  rw [hlen] at hsize
  have hneg : (-(M - 4)).toNat = (4 - M).toNat := by omega
  rw [hneg] at hsize
  exact ⟨rfl, rfl, hsize, by omega⟩

/-- C8 witness: max_size 2 with three tokens; the size is
4 + (3 - 2) = 5 and at least 4. -/
theorem claim_C8_witness :
    (Vocabulary.init 2).max_size = 2 ∧
    (Vocabulary.init 2).token_2_id_map = [] ∧
    ((Vocabulary.init 2).build (some ["x", "y", "z"])).size =
      4 + (((["x", "y", "z"].filter (fun t => !(specialTokens.contains t))).dedup).length -
        ((4 : Int) - 2).toNat) ∧
    4 ≤ ((Vocabulary.init 2).build (some ["x", "y", "z"])).size :=
  claim_C8_no_validation_amended 2 ["x", "y", "z"] (by decide)

/-- C2 counterexample: the claim says every public operation is total;
WordPiece.segment("aa") raises KeyError: the only merge is the pair
(a, a), and after its frequency update deletes the key a the source
rereads token_2_freq_map for the same key in the second zero test. -/
theorem claim_C2_counterexample :
    WordPiece.segment "aa" 1 = .error .keyError := by decide

/-- C2 as amended: the Vocabulary operations and the base
encode and decode are total, and WordPiece.decode returns a value
whenever the first decoded token does not carry the continuation prefix;
but BytePairEncoding.segment and learn raise TypeError on every input
(the loop iterates the integer itself), WordPiece.segment raises
KeyError on inputs such as "aa" (so learn and encode are only total when
segment succeeds: when it does, learn builds the vocabulary from the
pieces and encode maps each piece to its id), and WordPiece.decode
raises IndexError when the first token carries the prefix (after
training on "low lower lowest!" with 5 merges, id 6 decodes to the piece
with the continuation prefix and decoding [6] alone fails). -/
theorem claim_C2_totality_amended :
    (∀ (text : String) (m : Int), BytePairEncoding.segment text m = .error .typeError) ∧
    (∀ (text : String) (m : Int), BytePairEncoding.learn text m = .error .typeError) ∧
    WordPiece.segment "aa" 1 = .error .keyError ∧
    (WordPiece.learn "low lower lowest!" 5).map
      (fun v => WordPiece.decode v [some 6]) = .ok (.error .indexError) ∧
    (∀ (v : Vocabulary) (token_ids : List (Option Int)),
      (∀ id0 rest, token_ids = id0 :: rest →
        pyStartsWith (v.get_token id0) "##" = false) →
      ∃ s, WordPiece.decode v token_ids = .ok s) ∧
    (∀ (v : Vocabulary) (token_ids : List (Option Int)),
      Tokenizer.decode v token_ids =
        pyJoin (token_ids.map (fun id => v.get_token id))) ∧
    (∀ (text : String) (n : Nat) (pieces : List String),
      WordPiece.segment text n = .ok pieces →
      WordPiece.learn text n = .ok (Tokenizer.initVocab.build (some pieces)) ∧
      ∀ v : Vocabulary,
        WordPiece.encode v text n = .ok (pieces.map (fun p => v.get_id p))) := by
  refine ⟨fun _ _ => rfl, fun _ _ => rfl, by decide, by decide, ?_, fun _ _ => rfl, ?_⟩
  · exact decode_total_of_first_plain
  · intro text n pieces hseg
    constructor
    · unfold WordPiece.learn
      rw [hseg]
      rfl
    · intro v
      unfold WordPiece.encode
      rw [hseg]
      rfl

/-- C2 witness: WordPiece.decode is total on an id list whose first
token is the unknown token (no continuation prefix). -/
theorem claim_C2_witness :
    ∃ s, WordPiece.decode (Vocabulary.init 10000) [some 0, none] = .ok s :=
  claim_C2_totality_amended.2.2.2.2.1 (Vocabulary.init 10000) [some 0, none]
    (by
      intro id0 rest h
      injection h with h1 h2
      subst h1
      decide)

/-- C4: for every text and merge budget, whenever WordPiece.segment
returns, every produced piece that carries the continuation prefix is
the prefix on a nonempty run of word characters (never on a whitespace
or punctuation character), every piece without the prefix is either a
lone boundary character or a run of word characters (so no piece is a
merge spanning a whitespace or punctuation token), and stripping the
prefixes and concatenating the pieces reproduces the input text exactly
(boundary tokens are carried through unchanged). -/
theorem claim_C4_boundary_law (text : String) (n : Nat) (pieces : List String)
    (hseg : WordPiece.segment text n = .ok pieces) :
    (∀ p ∈ pieces,
      (pyStartsWith p "##" = true →
        ∃ t, wordTok t ∧ p = "##" ++ t ∧ WordPiece.isBoundaryTok t = false) ∧
      (pyStartsWith p "##" = false →
        WordPiece.isBoundaryTok p = true ∨ wordTok p)) ∧
    ((pieces.map (fun p =>
        if pyStartsWith p "##" = true then pyDropStr p 2 else p)).map
        String.data).flatten = text.data := by
  obtain ⟨merged, hloop, hpieces, hjoin, hshape⟩ := segment_ok_parts hseg
  constructor
  · intro p hp
    rw [hpieces] at hp
    have hmem := addPrefixesGo_mem merged hshape true p hp
    constructor
    · intro hpre
      rcases hmem with ⟨_, hfalse⟩ | ⟨_, hfalse⟩ | ⟨t, hword, rfl⟩
      · rw [hpre] at hfalse; exact Bool.noConfusion hfalse
      · rw [hpre] at hfalse; exact Bool.noConfusion hfalse
      · exact ⟨t, hword, rfl, wordTok_not_boundary hword⟩
    · intro hpre
      rcases hmem with ⟨hb, _⟩ | ⟨hw, _⟩ | ⟨t, _, rfl⟩
      · exact Or.inl hb
      · exact Or.inr hw
      · rw [startsWith_hh_append t] at hpre
        exact Bool.noConfusion hpre
  · rw [hpieces]
    rw [show WordPiece.add_prefixes merged = WordPiece.addPrefixesGo true merged from rfl]
    rw [addPrefixesGo_strip merged hshape true]
    exact hjoin

/-- C4 witness: the concrete segmentation of "low lower lowest!" at 5
merges; the piece carrying the prefix strips to the word piece er, and
the stripped pieces concatenate back to the text. -/
theorem claim_C4_witness :
    (∃ t, wordTok t ∧ "##er" = "##" ++ t ∧ WordPiece.isBoundaryTok t = false) ∧
    (((["low", " ", "low", "##er", " ", "low", "##est", "!"]).map (fun p =>
        if pyStartsWith p "##" = true then pyDropStr p 2 else p)).map
        String.data).flatten = "low lower lowest!".data :=
  ⟨((claim_C4_boundary_law "low lower lowest!" 5
      ["low", " ", "low", "##er", " ", "low", "##est", "!"] (by decide)).1
      "##er" (by decide)).1 (by decide),
   (claim_C4_boundary_law "low lower lowest!" 5
      ["low", " ", "low", "##er", " ", "low", "##est", "!"] (by decide)).2⟩

theorem map_id_of_mem {α : Type} {l : List α} {f : α → α}
    (h : ∀ a ∈ l, f a = a) : l.map f = l := by
  induction l with
  | nil => rfl
  | cons x rest ih =>
    rw [List.map_cons, h x (List.mem_cons_self _ _),
      ih (fun a ha => h a (List.mem_cons_of_mem _ ha))]

/-- C3 counterexample: the claim requires WordPiece(max_num_merges=100)
trained on "low lower lowest!" to segment it into the pieces low, er and
est with continuation prefixes; with a budget of 100 merges the loop
keeps merging across the former subword boundaries and produces the
fully merged words instead (the claimed segmentation arises at 5 merges,
the budget the repository's tests use). -/
theorem claim_C3_counterexample :
    WordPiece.segment "low lower lowest!" 100 =
      .ok ["low", " ", "lower", " ", "lowest", "!"] ∧
    WordPiece.segment "low lower lowest!" 100 ≠
      .ok ["low", " ", "low", "##er", " ", "low", "##est", "!"] := by
  constructor <;> decide

/-- C3 as amended: for every text whose WordPiece encoding after learn
contains no UNK id, decode of encode reproduces the text exactly (the
universal round-trip holds as claimed); concretely, on
"low lower lowest!" a budget of 100 merges yields the fully merged
segmentation low / lower / lowest (round-tripping all the same), and the
claimed segmentation with the prefixes ##er and ##est arises at the
test suite's budget of 5 merges. -/
theorem claim_C3_roundtrip_amended :
    (∀ (text : String) (n : Nat) (pieces : List String) (v : Vocabulary),
      WordPiece.segment text n = .ok pieces →
      v = Tokenizer.initVocab.build (some pieces) →
      v.UNKNOWN_ID ∉ pieces.map (fun p => v.get_id p) →
      WordPiece.learn text n = .ok v ∧
      WordPiece.encode v text n = .ok (pieces.map (fun p => v.get_id p)) ∧
      WordPiece.decode v (pieces.map (fun p => v.get_id p)) = .ok text) ∧
    WordPiece.segment "low lower lowest!" 100 =
      .ok ["low", " ", "lower", " ", "lowest", "!"] ∧
    WordPiece.segment "low lower lowest!" 5 =
      .ok ["low", " ", "low", "##er", " ", "low", "##est", "!"] := by
  refine ⟨?_, by decide, by decide⟩
  intro text n pieces v hseg hv hno
  subst hv
  have hlearn : WordPiece.learn text n = .ok (Tokenizer.initVocab.build (some pieces)) := by
    unfold WordPiece.learn
    rw [hseg]
    rfl
  have henc : WordPiece.encode (Tokenizer.initVocab.build (some pieces)) text n =
      .ok (pieces.map (fun p => (Tokenizer.initVocab.build (some pieces)).get_id p)) := by
    unfold WordPiece.encode
    rw [hseg]
    rfl
  refine ⟨hlearn, henc, ?_⟩
  have htokens : (pieces.map (fun p => (Tokenizer.initVocab.build (some pieces)).get_id p)).map
      (fun id => (Tokenizer.initVocab.build (some pieces)).get_token id) = pieces := by
    rw [List.map_map]
    refine map_id_of_mem ?_
    intro p hp
    have hne : (Tokenizer.initVocab.build (some pieces)).get_id p ≠
        (Tokenizer.initVocab.build (some pieces)).UNKNOWN_ID := by
      intro hcontra
      apply hno
      rw [← hcontra]
      exact List.mem_map_of_mem _ hp
    exact built_get_token_get_id 10000 pieces p hne
  show (do
    let decoded_text ← WordPiece.decodeGo []
      ((pieces.map (fun p => (Tokenizer.initVocab.build (some pieces)).get_id p)).map
        (fun id => (Tokenizer.initVocab.build (some pieces)).get_token id))
    Except.ok (pyJoin decoded_text.reverse)) = Except.ok text
  rw [htokens]
  obtain ⟨merged, hloop, hpieces, hjoin, hshape⟩ := segment_ok_parts hseg
  rw [hpieces,
    show WordPiece.add_prefixes merged = WordPiece.addPrefixesGo true merged from rfl]
  obtain ⟨acc', hgo, haccjoin⟩ :=
    decodeGo_addPrefixes merged hshape true [] (fun hcontra => Bool.noConfusion hcontra)
  rw [hgo]
  show Except.ok (pyJoin acc'.reverse) = Except.ok text
  have hfinal : pyJoin acc'.reverse = text := by
    unfold pyJoin
    have hdata : (acc'.reverse.map String.data).flatten = text.data := by
      rw [haccjoin]
      simp only [List.reverse_nil, List.map_nil, List.flatten_nil, List.nil_append]
      exact hjoin
    rw [hdata]
  rw [hfinal]

/-- C3 witness: the round trip at the concrete text with 100 merges:
decode of the encoded pieces returns the exact original string. -/
theorem claim_C3_witness :
    WordPiece.decode (Tokenizer.initVocab.build
        (some ["low", " ", "lower", " ", "lowest", "!"]))
      ((["low", " ", "lower", " ", "lowest", "!"]).map
        (fun p => (Tokenizer.initVocab.build
          (some ["low", " ", "lower", " ", "lowest", "!"])).get_id p)) =
      .ok "low lower lowest!" :=
  (claim_C3_roundtrip_amended.1 "low lower lowest!" 100
    ["low", " ", "lower", " ", "lowest", "!"] _ (by decide) rfl (by decide)).2.2
